import Mathlib

/-!
# Verification of the KonaDL crawl-and-download pipeline (`libkonadl.py`)

Shallow embedding of the checkpoint (save/resume) protocol, the rating
filter, the update-mode boundary detection, the download-worker failure
handling, and the crawl coordinator's control flow, together with proofs
about the claims of the specification.

Strings are modelled as `List Char` (`Str`), and the relevant Python
primitives (`int()`, `str.split`, `str.strip`, `str.replace`, file line
iteration) are given executable models.
-/

/-- Model of Python strings: a list of characters. -/
abbrev Str := List Char

/-! ## Python string primitives -/

/-- The characters stripped by Python's default `str.strip()` /
ignored around `int()` input. -/
def pyIsSpace (c : Char) : Bool :=
  c == ' ' || c == '\t' || c == '\n' || c == '\r' || c == '\x0b' || c == '\x0c'

/-- Python `s.strip(chars)` restricted to a single predicate: drop matching
characters from both ends. -/
def pyStrip (p : Char → Bool) (s : Str) : Str :=
  ((s.dropWhile p).reverse.dropWhile p).reverse

/-- Python `s.strip()` (default whitespace). -/
def pyStripWs (s : Str) : Str := pyStrip pyIsSpace s

/-- Python `s.strip('\n')`. -/
def pyStripNl (s : Str) : Str := pyStrip (fun c => c == '\n') s

/-- Numeric value of a decimal digit character. -/
def dval (c : Char) : Nat := c.toNat - 48

/-- Digit-run parser for Python `int()`: consumes decimal digits, allowing a
single `_` only between two digits, accumulating the value.  The flag
records that the previous character was an underscore (so a digit must
follow).  Returns `none` on any other character, on `_` at the end, or on
`__`. -/
def pyDigitsGo (acc : Nat) : Bool → Str → Option Nat
  | afterUnderscore, [] => if afterUnderscore then none else some acc
  | afterUnderscore, c :: rest =>
    if c.isDigit then pyDigitsGo (10 * acc + dval c) false rest
    else if c = '_' && !afterUnderscore then pyDigitsGo acc true rest
    else none

/-- A nonempty run of decimal digits (with Python's underscore rule),
starting with a digit. -/
def pyDigitsStr (s : Str) : Option Nat :=
  match s with
  | [] => none
  | c :: rest => if c.isDigit then pyDigitsGo (dval c) false rest else none

/-- Model of Python `int(s)` for a decimal string: strip whitespace, optional
sign, digit run.  `none` models a raised `ValueError`. -/
def pyIntParse (s : Str) : Option Int :=
  let l := pyStripWs s
  if l.head? = some '+' then (pyDigitsStr l.tail).map Int.ofNat
  else if l.head? = some '-' then (pyDigitsStr l.tail).map (fun n : Nat => -(n : Int))
  else (pyDigitsStr l).map Int.ofNat

/-- The decimal digit character for `n < 10`. -/
def digitChar (n : Nat) : Char := Char.ofNat (48 + n)

/-- Decimal digits of a natural number, most significant first; fuel-based so
that it is structurally recursive (kernel-reducible).  `natDigitsGo fuel n acc`
is correct whenever `n < fuel`. -/
def natDigitsGo : Nat → Nat → Str → Str
  | 0, _, acc => acc
  | fuel + 1, n, acc =>
    if n < 10 then digitChar n :: acc
    else natDigitsGo fuel (n / 10) (digitChar (n % 10) :: acc)

/-- Decimal representation of a natural number. -/
def natDigits (n : Nat) : Str := natDigitsGo (n + 1) n []

/-- Model of Python `str(n)` for an integer. -/
def pyStr (n : Int) : Str :=
  if n < 0 then '-' :: natDigits n.natAbs else natDigits n.natAbs

/-- Model of Python `s.split(sep)` for a one-character separator: always
returns a nonempty list of (possibly empty) pieces. -/
def splitOnChar (sep : Char) : Str → List Str
  | [] => [[]]
  | c :: rest =>
    if c = sep then [] :: splitOnChar sep rest
    else
      match splitOnChar sep rest with
      | [] => [[c]]
      | h :: t => (c :: h) :: t

/-- Model of Python file-line iteration (`for line in f`), with the trailing
newline of each line already removed (every use in the source strips it
anyway): split on `'\n'` and drop the final empty piece produced by a
terminating newline.  The empty file yields no lines. -/
def pyLines (s : Str) : List Str :=
  let ps := splitOnChar '\n' s
  if ps.getLast? = some [] then ps.dropLast else ps

/-- Fuel-driven worker for `pyReplace`; the fuel starts at the length of the
string, and strictly exceeds the number of remaining steps throughout. -/
def pyReplaceGo (pat rep : Str) : Nat → Str → Str
  | _, [] => []
  | 0, s => s
  | fuel + 1, c :: rest =>
    if pat ≠ [] && pat.isPrefixOf (c :: rest) then
      rep ++ pyReplaceGo pat rep fuel (rest.drop (pat.length - 1))
    else c :: pyReplaceGo pat rep fuel rest

/-- Model of Python `s.replace(pat, rep)` for nonempty `pat`: replace each
non-overlapping occurrence, scanning left to right. -/
def pyReplace (pat rep s : Str) : Str := pyReplaceGo pat rep s.length s

/-- Model of the Python substring test `pat in s`. -/
def pyIn (pat : Str) : Str → Bool
  | [] => pat.isEmpty
  | c :: rest => pat.isPrefixOf (c :: rest) || pyIn pat rest

/-! ## Data model -/

/-- A download job as carried by `download_queue`: the `(url, page, rating)`
tuple pushed by the page-crawl worker and by `crawl_new_images`. -/
structure DJob where
  url : Str
  page : Int
  rating : Str
deriving DecidableEq, Repr

/-- The data extracted from one `<li>` post element of a listing page: the
element id, the `alt` text of its thumbnail (which carries the rating),
and the `href` of its `directlink` anchor. -/
structure Post where
  id : Str
  alt : Str
  href : Str
deriving DecidableEq, Repr

/-- The three rating-selection fields `self.safe` / `self.questionable` /
`self.explicit`. -/
structure Flags where
  safe : Bool
  questionable : Bool
  explicit : Bool
deriving DecidableEq, Repr

/-- The three content ratings. -/
inductive Rating where
  | safe
  | questionable
  | explicit
deriving DecidableEq, Repr, Fintype

/-- The marker substring that the source looks for in a post's `alt` text. -/
def ratingMarker : Rating → Str
  | .safe => "Rating: Safe".toList
  | .questionable => "Rating: Questionable".toList
  | .explicit => "Rating: Explicit".toList

/-- The rating string stored into a `DJob` for each rating. -/
def ratingName : Rating → Str
  | .safe => "safe".toList
  | .questionable => "questionable".toList
  | .explicit => "explicit".toList

/-- Whether the flag matching a rating is enabled. -/
def flagEnabled (f : Flags) : Rating → Bool
  | .safe => f.safe
  | .questionable => f.questionable
  | .explicit => f.explicit

/-! ## Rating filter and post processing

The chain below appears verbatim three times in the source
(`get_newest_image_id` lines 315–321, `crawl_new_images` lines 352–358,
`crawl_post_page_worker` lines 438–445); it is embedded once. -/

/-- The rating chain: `rating = False`; `if 'Rating: Safe' in alt and
self.safe: rating = 'safe'` / `elif ... Questionable ...` / `elif ...
Explicit ...`.  Returns the rating string, or `none` for a rejected post. -/
def rating_of_post (f : Flags) (alt : Str) : Option Str :=
  if pyIn "Rating: Safe".toList alt && f.safe then some "safe".toList
  else if pyIn "Rating: Questionable".toList alt && f.questionable then
    some "questionable".toList
  else if pyIn "Rating: Explicit".toList alt && f.explicit then
    some "explicit".toList
  else none

/-- `if 'https:' not in url: url = '{}{}'.format('https:', url)`
(lines 448–449 and 361–362). -/
def normalize_url (href : Str) : Str :=
  if pyIn "https:".toList href then href else "https:".toList ++ href

/-- The download jobs a single post contributes: one `(url, page, rating)`
tuple when the rating chain accepts it, none otherwise (lines 437–450,
identically 348–363). -/
def post_jobs (f : Flags) (page : Int) (p : Post) : List DJob :=
  match rating_of_post f p.alt with
  | some r => [⟨normalize_url p.href, page, r⟩]
  | none => []

/-- The jobs that `crawl_post_page_worker` pushes onto `download_queue` for
one successfully fetched listing page, in source order (lines 437–450). -/
def crawl_post_page_posts (f : Flags) (page : Int) (posts : List Post) : List DJob :=
  posts.flatMap (post_jobs f page)

/-- `get_newest_image_id` (lines 302–323) applied to the parsed posts of the
first listing page: the id of the first post whose rating chain fires,
`none` (Python `None`) when no post matches. -/
def get_newest_image_id (f : Flags) : List Post → Option Str
  | [] => none
  | p :: rest =>
    match rating_of_post f p.alt with
    | some _ => some p.id
    | none => get_newest_image_id f rest

/-- Inner loop of `crawl_new_images` over one page's posts (lines 348–363):
returns the jobs pushed before the boundary, and whether the boundary post
(`post['id'] == self.previous_newest_id`, checked before the rating chain)
was seen, which makes the whole procedure `return`. -/
def crawl_new_page (f : Flags) (prev : Str) (page : Int) : List Post → List DJob × Bool
  | [] => ([], false)
  | p :: rest =>
    if p.id = prev then ([], true)
    else
      let r := crawl_new_page f prev page rest
      (post_jobs f page p ++ r.1, r.2)

/-- `crawl_new_images` (lines 325–363) over the already-fetched pages
`1 .. get_total_pages()` in order, each paired with its parsed posts:
the list of jobs pushed onto `download_queue`.  Pagination stops as soon
as one page reports the boundary. -/
def crawl_new_images (f : Flags) (prev : Str) : List (Int × List Post) → List DJob
  | [] => []
  | (page, posts) :: rest =>
    let r := crawl_new_page f prev page posts
    if r.2 then r.1 else r.1 ++ crawl_new_images f prev rest

/-! ## Download worker -/

/-- Outcome of the image fetch for one download job: a raised network error
during `requests.get`, or a response with its status code, its
`content-length` header (absent or its numeric value), and the number of
bytes of its body (which `file.write` reports). -/
inductive Fetch where
  | netError
  | resp (status : Nat) (contentLength : Option Int) (bodyLen : Int)
deriving DecidableEq, Repr

/-- Observable effects of one iteration of `retrieve_post_image_worker`
(lines 365–408) on one dequeued job: how many `task_done` calls it makes,
which jobs it re-enqueues, how much it adds to `total_downloads`, whether
the written file is still on disk afterwards, and whether
`write_traceback` recorded a failure. -/
structure WorkerEffects where
  taskDones : Nat
  requeued : List DJob
  downloads : Nat
  fileLeftOnDisk : Bool
  recordedError : Bool
deriving DecidableEq, Repr

/-- One iteration of `retrieve_post_image_worker` on a real job (not the
`(None, None, None)` sentinel), as a function of the fetch outcome.  The
model tracks only the file written in this iteration.  Faithful to the
source: the content-length check precedes the status check; `task_done`,
re-enqueue and file removal happen inside the `elif` before
`raise_for_status()`, which raises only for `400 <= status < 600`; the
`except HTTPError` arm only records; the generic `except Exception` arm
records, prints, acknowledges, re-enqueues and removes the file. -/
def retrieve_post_image_worker_step (job : DJob) (fetch : Fetch) : WorkerEffects :=
  match fetch with
  | .netError =>
    -- requests.get raised before any file was opened: generic except arm.
    ⟨1, [job], 0, false, true⟩
  | .resp status contentLength bodyLen =>
    match contentLength with
    | none =>
      -- headers['content-length'] raises KeyError: generic except arm.
      ⟨1, [job], 0, false, true⟩
    | some c =>
      if c ≠ bodyLen then
        -- raise Exception('Faulty download'): generic except arm.
        ⟨1, [job], 0, false, true⟩
      else if status ≠ 200 then
        if 400 ≤ status ∧ status < 600 then
          -- raise_for_status() raises HTTPError after the elif's own
          -- task_done / re-enqueue / file removal; handler only records.
          ⟨1, [job], 0, false, true⟩
        else
          -- raise_for_status() does not raise: execution falls through to
          -- total_downloads += 1 and a second task_done.
          ⟨2, [job], 1, false, false⟩
      else
        ⟨1, [], 1, true, false⟩

/-- `file_name = url.split("/")[-1].replace('%20', '_').replace('_-_', '_')`
(line 379). -/
def file_name (url : Str) : Str :=
  pyReplace "_-_".toList "_".toList
    (pyReplace "%20".toList "_".toList ((splitOnChar '/' url).getLastD []))

/-- The output path of a job (lines 380–383): storage root, then
`'{rating}/'` when `self.separate` is set, then the derived file name. -/
def file_path (storage : Str) (separate : Bool) (j : DJob) : Str :=
  storage ++ (if separate then j.rating ++ ['/'] else []) ++ file_name j.url

/-! ## Checkpoint files -/

/-- The line `'{}|{}|{}\n'.format(link, str(page), rating)` that
`save_queues` writes for one download job (line 500). -/
def downloadLine (j : DJob) : Str := j.url ++ '|' :: pyStr j.page ++ '|' :: j.rating

/-- Contents of `download_queue.progress` written by `save_queues`
(lines 497–502): one line per job, in queue (FIFO) order. -/
def saveDownloadFile (jobs : List DJob) : Str :=
  (jobs.map (fun j => downloadLine j ++ ['\n'])).flatten

/-- Contents of `post_queue.progress` written by `save_queues`
(lines 504–508): one line per page number, in queue order. -/
def savePostFile (pages : List Int) : Str :=
  (pages.map (fun p => pyStr p ++ ['\n'])).flatten

/-- `save_queues` (lines 490–508): the pair of progress-file contents. -/
def save_queues (downloadQueue : List DJob) (postQueue : List Int) : Str × Str :=
  (saveDownloadFile downloadQueue, savePostFile postQueue)

/-- The Python exceptions that can escape one parsing step of
`read_queues`.  `except (KeyError, ValueError)` catches only the first. -/
inductive PErr where
  | valueError
  | indexError
deriving DecidableEq, Repr

/-- Parsing of one `download_queue.progress` line (line 545):
`(line.split('|')[0], int(line.split('|')[1]), line.split('|')[2].strip('\n'))`,
with Python's evaluation order: a missing field `[1]` raises `IndexError`;
a present but non-numeric field `[1]` raises `ValueError`; a missing field
`[2]` raises `IndexError`; extra fields are silently ignored. -/
def parseDownloadLine (line : Str) : Except PErr DJob :=
  match splitOnChar '|' line with
  | [] => .error .indexError
  | [_] => .error .indexError
  | [_, p] =>
    match pyIntParse p with
    | none => .error .valueError
    | some _ => .error .indexError
  | u :: p :: r :: _ =>
    match pyIntParse p with
    | none => .error .valueError
    | some n => .ok ⟨u, n, pyStripNl r⟩

/-- Parsing of one `post_queue.progress` line (line 550):
`int(line.strip('\n'))`. -/
def parsePostLine (line : Str) : Except PErr Int :=
  match pyIntParse (pyStripNl line) with
  | none => .error .valueError
  | some n => .ok n

/-- Short-circuiting map over `Except`: process items in order, stopping at
the first raised exception — the shape of the `for line in file` loops of
`read_queues`. -/
def mapExcept {A B : Type} (f : A → Except PErr B) : List A → Except PErr (List B)
  | [] => .ok []
  | a :: rest =>
    match f a with
    | .error e => .error e
    | .ok b =>
      match mapExcept f rest with
      | .error e => .error e
      | .ok bs => .ok (b :: bs)

/-- The jobs `read_queues` pushes from `download_queue.progress`, or the
first exception raised (lines 543–546). -/
def readDownloadFile (content : Str) : Except PErr (List DJob) :=
  mapExcept parseDownloadLine (pyLines content)

/-- The pages `read_queues` pushes from `post_queue.progress`, or the first
exception raised (lines 548–551). -/
def readPostFile (content : Str) : Except PErr (List Int) :=
  mapExcept parsePostLine (pyLines content)

/-- Process-level outcome of `read_queues` (lines 534–556): success with the
reconstructed queues; the `except (KeyError, ValueError)` arm, which prints
the faulty-progress message and calls `exit(1)`; or an exception the
handler does not catch (an `IndexError`), which crashes without that
message.  (`read_metadata`, also called on success, touches only the
rating/statistics fields, not the queues.) -/
inductive ReadQueuesOutcome where
  | ok (downloadQueue : List DJob) (postQueue : List Int)
  | faultyExit
  | uncaughtCrash
deriving DecidableEq, Repr

/-- `read_queues` on the two progress-file contents, download file first. -/
def read_queues (dl post : Str) : ReadQueuesOutcome :=
  match readDownloadFile dl with
  | .error .valueError => .faultyExit
  | .error .indexError => .uncaughtCrash
  | .ok jobs =>
    match readPostFile post with
    | .error .valueError => .faultyExit
    | .error .indexError => .uncaughtCrash
    | .ok pages => .ok jobs pages

/-! ## Metadata and the crawl coordinator -/

/-- The sections `save_metadata` writes to `metadata.progress`
(lines 510–532), with every value as the string configparser stores. -/
structure Metadata where
  safe : Str
  questionable : Str
  explicit : Str
  total_downloads : Str
  time_elapsed : Str
  previous_newest_id : Str
deriving DecidableEq, Repr

/-- `str(int(b))` for a boolean flag. -/
def pyBoolStr (b : Bool) : Str := if b then "1".toList else "0".toList

/-- `save_metadata` (lines 510–532) given a string `current_newest_id`:
writes the flags, then `total_downloads` and `time_elapsed` (the latter
passed here as the already-formatted `str(round(time.time() -
self.begin_time, 5))`), both overwritten with `'0'` when `job_done`. -/
def save_metadata (f : Flags) (totalDownloads : Int) (elapsed : Str)
    (jobDone : Bool) (currentNewestId : Str) : Metadata :=
  let base : Metadata :=
    { safe := pyBoolStr f.safe
      questionable := pyBoolStr f.questionable
      explicit := pyBoolStr f.explicit
      total_downloads := pyStr totalDownloads
      time_elapsed := elapsed
      previous_newest_id := currentNewestId }
  if jobDone then
    { base with total_downloads := "0".toList, time_elapsed := "0".toList }
  else base

/-- `save_metadata` as called by `crawl`, where `self.current_newest_id` is
whatever `get_newest_image_id` returned: assigning Python `None` to the
configparser option `previous_newest_id` (line 529) raises `TypeError`
(configparser option values must be strings), modelled as `.error ()`. -/
def save_metadata_checked (f : Flags) (totalDownloads : Int) (elapsed : Str)
    (jobDone : Bool) : Option Str → Except Unit Metadata
  | none => .error ()
  | some nid => .ok (save_metadata f totalDownloads elapsed jobDone nid)

/-- Observable outcome of one `crawl()` call: the returned boolean (`none`
when an exception escapes `crawl`), whether `save_queues` ran, whether
`save_metadata` completed, and whether the progress files were removed. -/
structure CrawlEffects where
  result : Option Bool
  savedQueues : Bool
  savedMetadata : Bool
  removedProgressFiles : Bool
deriving DecidableEq, Repr

/-- Control skeleton of `crawl` (lines 133–218), abstracted over thread
scheduling: `newestId` is what `get_newest_image_id` returned (line 158),
`interrupted` is whether a `KeyboardInterrupt` reaches the coordinator
before the queues drain, and `downloadQueueNonempty` is the
`not self.download_queue.empty()` test of line 202 at that moment.
The completion path (lines 182–197) joins the queues, sets `job_done`,
calls `save_metadata` and returns `True`; the interrupt path
(lines 198–218) calls `save_queues` only when the download queue is
nonempty, then `save_metadata`, and returns `False`.  Neither path calls
`remove_progress_files`, and a `None` newest id makes `save_metadata`
raise `TypeError`, which `except (KeyboardInterrupt, SystemExit)` does
not catch. -/
def crawl (newestId : Option Str) (interrupted downloadQueueNonempty : Bool) :
    CrawlEffects :=
  if interrupted then
    { result := if newestId.isSome then some false else none
      savedQueues := downloadQueueNonempty
      savedMetadata := newestId.isSome
      removedProgressFiles := false }
  else
    { result := if newestId.isSome then some true else none
      savedQueues := false
      savedMetadata := newestId.isSome
      removedProgressFiles := false }

/-- The page-to-post pairs of the listing pages, flattened in crawl order:
page 1's posts in source order, then page 2's, and so on. -/
def flatPosts (pages : List (Int × List Post)) : List (Int × Post) :=
  pages.flatMap (fun pp => pp.2.map (fun p => (pp.1, p)))

/-- Reference recursion for `crawl_new_images` over the flattened post
sequence: process posts in order, stopping at the first boundary post. -/
def newImagesFlat (f : Flags) (prev : Str) : List (Int × Post) → List DJob
  | [] => []
  | (page, p) :: rest =>
    if p.id = prev then []
    else post_jobs f page p ++ newImagesFlat f prev rest

/-- Concrete sample posts for evaluating the update-boundary theorem. -/
def samplePostA : Post :=
  ⟨"id0".toList, "Rating: Safe Score: 10".toList, "https://a/1.png".toList⟩

/-- The sample boundary post, whose id matches the previously newest id. -/
def samplePostB : Post :=
  ⟨"id2".toList, "Rating: Safe Score: 11".toList, "https://a/2.png".toList⟩

/-- A sample post sitting after the boundary. -/
def samplePostC : Post :=
  ⟨"id3".toList, "Rating: Safe Score: 12".toList, "https://a/3.png".toList⟩

/-- A one-page listing containing the three sample posts. -/
def samplePages : List (Int × List Post) := [(1, [samplePostA, samplePostB, samplePostC])]

/-! ## Lemmas: digits and `int()` / `str()` round-trip -/

theorem digitChar_spec : ∀ n, n < 10 →
    (digitChar n).isDigit = true ∧ dval (digitChar n) = n := by decide

theorem isDigit_ne_plus {c : Char} (h : c.isDigit = true) : c ≠ '+' := by
  intro he; subst he; exact absurd h (by decide)

theorem isDigit_ne_minus {c : Char} (h : c.isDigit = true) : c ≠ '-' := by
  intro he; subst he; exact absurd h (by decide)

theorem isDigit_ne_underscore {c : Char} (h : c.isDigit = true) : c ≠ '_' := by
  intro he; subst he; exact absurd h (by decide)

theorem pyIsSpace_not_digit {c : Char} (h : pyIsSpace c = true) :
    c.isDigit = false := by
  simp only [pyIsSpace, Bool.or_eq_true, beq_iff_eq] at h
  rcases h with ((((h | h) | h) | h) | h) | h <;> subst h <;> decide

theorem isDigit_not_space {c : Char} (h : c.isDigit = true) :
    pyIsSpace c = false := by
  cases hs : pyIsSpace c with
  | false => rfl
  | true => rw [pyIsSpace_not_digit hs] at h; exact absurd h (by decide)

theorem natDigitsGo_acc (fuel : Nat) :
    ∀ n acc, natDigitsGo fuel n acc = natDigitsGo fuel n [] ++ acc := by
  induction fuel with
  | zero => intro n acc; simp [natDigitsGo]
  | succ fuel ih =>
    intro n acc
    by_cases h : n < 10
    · simp [natDigitsGo, h]
    · simp only [natDigitsGo, if_neg h]
      rw [ih (n / 10) (digitChar (n % 10) :: acc), ih (n / 10) [digitChar (n % 10)]]
      simp

theorem natDigitsGo_fuel (f₁ : Nat) :
    ∀ f₂ n acc, n < f₁ → n < f₂ → natDigitsGo f₁ n acc = natDigitsGo f₂ n acc := by
  induction f₁ with
  | zero => intro f₂ n acc h; omega
  | succ f₁ ih =>
    intro f₂ n acc h₁ h₂
    cases f₂ with
    | zero => omega
    | succ f₂ =>
      by_cases h : n < 10
      · simp [natDigitsGo, h]
      · simp only [natDigitsGo, if_neg h]
        exact ih f₂ (n / 10) _ (by omega) (by omega)

theorem natDigits_lt10 {n : Nat} (h : n < 10) : natDigits n = [digitChar n] := by
  simp [natDigits, natDigitsGo, h]

theorem natDigits_decomp {n : Nat} (h : 10 ≤ n) :
    natDigits n = natDigits (n / 10) ++ [digitChar (n % 10)] := by
  have hlt : n / 10 < n := Nat.div_lt_self (by omega) (by omega)
  unfold natDigits
  rw [show natDigitsGo (n + 1) n [] =
      natDigitsGo n (n / 10) [digitChar (n % 10)] by
    simp [natDigitsGo, Nat.not_lt.mpr h]]
  rw [natDigitsGo_acc, natDigitsGo_fuel n (n / 10 + 1) (n / 10) [] (by omega) (by omega)]

theorem mem_natDigits_isDigit : ∀ n c, c ∈ natDigits n → c.isDigit = true := by
  intro n
  induction n using Nat.strong_induction_on with
  | _ n ih =>
    intro c hc
    by_cases h : n < 10
    · rw [natDigits_lt10 h] at hc
      simp at hc; subst hc
      exact (digitChar_spec n h).1
    · rw [natDigits_decomp (by omega)] at hc
      rcases List.mem_append.mp hc with h' | h'
      · exact ih (n / 10) (Nat.div_lt_self (by omega) (by omega)) c h'
      · simp at h'; subst h'
        exact (digitChar_spec (n % 10) (Nat.mod_lt n (by omega))).1

theorem natDigits_ne_nil (n : Nat) : natDigits n ≠ [] := by
  by_cases h : n < 10
  · rw [natDigits_lt10 h]; simp
  · rw [natDigits_decomp (by omega)]; simp

theorem pyDigitsGo_all_digits :
    ∀ (l : Str), (∀ c ∈ l, c.isDigit = true) → ∀ a,
      pyDigitsGo a false l = some (l.foldl (fun a c => 10 * a + dval c) a) := by
  intro l
  induction l with
  | nil => intro _ a; simp [pyDigitsGo]
  | cons c rest ih =>
    intro h a
    have hc : c.isDigit = true := h c (by simp)
    simp only [pyDigitsGo]
    rw [if_pos hc, ih (fun x hx => h x (by simp [hx])) _]
    simp

theorem foldl_natDigits :
    ∀ n, (natDigits n).foldl (fun a c => 10 * a + dval c) 0 = n := by
  intro n
  induction n using Nat.strong_induction_on with
  | _ n ih =>
    by_cases h : n < 10
    · rw [natDigits_lt10 h]
      simp [(digitChar_spec n h).2]
    · rw [natDigits_decomp (by omega), List.foldl_append,
        ih (n / 10) (Nat.div_lt_self (by omega) (by omega))]
      simp [(digitChar_spec (n % 10) (Nat.mod_lt n (by omega))).2]
      omega

theorem pyDigitsStr_natDigits (n : Nat) : pyDigitsStr (natDigits n) = some n := by
  obtain ⟨c, rest, hcr⟩ := List.exists_cons_of_ne_nil (natDigits_ne_nil n)
  have hall : ∀ x ∈ natDigits n, x.isDigit = true := mem_natDigits_isDigit n
  have hc : c.isDigit = true := hall c (by rw [hcr]; simp)
  rw [hcr, pyDigitsStr, if_pos hc,
    pyDigitsGo_all_digits rest (fun x hx => hall x (by rw [hcr]; simp [hx]))]
  have := foldl_natDigits n
  rw [hcr] at this
  simp only [List.foldl_cons] at this
  rw [show 10 * 0 + dval c = dval c by omega] at this
  rw [this]

theorem dropWhile_all_false {p : Char → Bool} :
    ∀ {l : Str}, (∀ c ∈ l, p c = false) → l.dropWhile p = l := by
  intro l h
  cases l with
  | nil => rfl
  | cons c t => simp [List.dropWhile_cons, h c (by simp)]

theorem pyStrip_all_false {p : Char → Bool} {l : Str}
    (h : ∀ c ∈ l, p c = false) : pyStrip p l = l := by
  unfold pyStrip
  rw [dropWhile_all_false h, dropWhile_all_false (by intro c hc; exact h c (by simpa using hc))]
  simp

theorem mem_pyStr {n : Int} {c : Char} (h : c ∈ pyStr n) :
    c = '-' ∨ c.isDigit = true := by
  unfold pyStr at h
  by_cases hn : n < 0
  · rw [if_pos hn] at h
    rcases List.mem_cons.mp h with h' | h'
    · exact Or.inl h'
    · exact Or.inr (mem_natDigits_isDigit _ c h')
  · rw [if_neg hn] at h
    exact Or.inr (mem_natDigits_isDigit _ c h)

theorem pipe_not_mem_pyStr (n : Int) : '|' ∉ pyStr n := by
  intro h
  rcases mem_pyStr h with h' | h' <;> exact absurd h' (by decide)

theorem newline_not_mem_pyStr (n : Int) : '\n' ∉ pyStr n := by
  intro h
  rcases mem_pyStr h with h' | h' <;> exact absurd h' (by decide)

theorem pyStr_no_space {n : Int} : ∀ c ∈ pyStr n, pyIsSpace c = false := by
  intro c hc
  rcases mem_pyStr hc with h' | h'
  · subst h'; decide
  · exact isDigit_not_space h'

theorem pyStripWs_id {l : Str} (h : ∀ c ∈ l, pyIsSpace c = false) :
    pyStripWs l = l :=
  pyStrip_all_false h

theorem pyIntParse_pyStr (n : Int) : pyIntParse (pyStr n) = some n := by
  unfold pyIntParse
  rw [pyStripWs_id (pyStr_no_space (n := n))]
  by_cases hn : n < 0
  · rw [show pyStr n = '-' :: natDigits n.natAbs by simp [pyStr, hn]]
    simp only [List.head?_cons, List.tail_cons, Option.some.injEq]
    rw [if_neg (by decide), if_pos trivial, pyDigitsStr_natDigits]
    simp only [Option.map_some', Option.some.injEq]
    omega
  · rw [show pyStr n = natDigits n.natAbs by simp [pyStr, hn]]
    obtain ⟨c, rest, hcr⟩ := List.exists_cons_of_ne_nil (natDigits_ne_nil n.natAbs)
    have hc : c.isDigit = true := mem_natDigits_isDigit n.natAbs c (by rw [hcr]; simp)
    rw [hcr]
    simp only [List.head?_cons, List.tail_cons, Option.some.injEq]
    rw [if_neg (isDigit_ne_plus hc), if_neg (isDigit_ne_minus hc), ← hcr,
      pyDigitsStr_natDigits]
    simp
    omega

/-! ## Lemmas: splitting, lines, and the checkpoint round trip -/

theorem splitOnChar_ne_nil (sep : Char) (l : Str) : splitOnChar sep l ≠ [] := by
  cases l with
  | nil => simp [splitOnChar]
  | cons c rest =>
    simp only [splitOnChar]
    by_cases h : c = sep
    · simp [h]
    · simp only [if_neg h]
      cases splitOnChar sep rest <;> simp

theorem splitOnChar_not_mem {sep : Char} :
    ∀ {l : Str}, sep ∉ l → splitOnChar sep l = [l] := by
  intro l
  induction l with
  | nil => intro _; rfl
  | cons c rest ih =>
    intro h
    have hc : c ≠ sep := fun he => h (by simp [he])
    have hrest : sep ∉ rest := fun hm => h (by simp [hm])
    simp only [splitOnChar, if_neg hc, ih hrest]

theorem splitOnChar_append {sep : Char} :
    ∀ {x : Str} (y : Str), sep ∉ x →
      splitOnChar sep (x ++ sep :: y) = x :: splitOnChar sep y := by
  intro x
  induction x with
  | nil => intro y _; simp [splitOnChar]
  | cons a x' ih =>
    intro y h
    have ha : a ≠ sep := fun he => h (by simp [he])
    have hx : sep ∉ x' := fun hm => h (by simp [hm])
    simp only [List.cons_append, splitOnChar, if_neg ha, List.append_eq]
    rw [ih y hx]

theorem pyLines_flatten {ls : List Str} (h : ∀ l ∈ ls, '\n' ∉ l) :
    pyLines ((ls.map (fun l => l ++ ['\n'])).flatten) = ls := by
  have hsplit : ∀ (ms : List Str), (∀ l ∈ ms, '\n' ∉ l) →
      splitOnChar '\n' ((ms.map (fun l => l ++ ['\n'])).flatten) = ms ++ [[]] := by
    intro ms
    induction ms with
    | nil => intro _; rfl
    | cons l ms' ih =>
      intro hm
      simp only [List.map_cons, List.flatten_cons, List.append_assoc, List.singleton_append]
      rw [splitOnChar_append _ (hm l (by simp)), ih (fun x hx => hm x (by simp [hx]))]
      rfl
  unfold pyLines
  rw [hsplit ls h]
  simp [List.getLast?_concat, List.dropLast_concat]

theorem pyStripNl_id {l : Str} (h : '\n' ∉ l) : pyStripNl l = l := by
  apply pyStrip_all_false
  intro c hc
  simp only [beq_eq_false_iff_ne, ne_eq]
  intro he
  subst he
  exact h hc

theorem newline_not_mem_downloadLine {j : DJob}
    (hu : '\n' ∉ j.url) (hr : '\n' ∉ j.rating) : '\n' ∉ downloadLine j := by
  intro hmem
  simp only [downloadLine, List.mem_append, List.mem_cons] at hmem
  have h1 : '\n' ∉ pyStr j.page := newline_not_mem_pyStr j.page
  have h2 : ('\n' : Char) ≠ '|' := by decide
  tauto

theorem splitOnChar_downloadLine {j : DJob} (hu : '|' ∉ j.url)
    (hr : '|' ∉ j.rating) :
    splitOnChar '|' (downloadLine j) = [j.url, pyStr j.page, j.rating] := by
  unfold downloadLine
  rw [show j.url ++ '|' :: pyStr j.page ++ '|' :: j.rating =
      j.url ++ '|' :: (pyStr j.page ++ '|' :: j.rating) by simp]
  rw [splitOnChar_append _ hu, splitOnChar_append _ (pipe_not_mem_pyStr j.page),
    splitOnChar_not_mem hr]

theorem parseDownloadLine_downloadLine {j : DJob} (hu1 : '|' ∉ j.url)
    (_hu2 : '\n' ∉ j.url) (hr1 : '|' ∉ j.rating) (hr2 : '\n' ∉ j.rating) :
    parseDownloadLine (downloadLine j) = .ok j := by
  unfold parseDownloadLine
  rw [splitOnChar_downloadLine hu1 hr1]
  simp only [pyIntParse_pyStr, pyStripNl_id hr2]

theorem parsePostLine_pyStr (p : Int) : parsePostLine (pyStr p) = .ok p := by
  unfold parsePostLine
  rw [pyStripNl_id (newline_not_mem_pyStr p), pyIntParse_pyStr]

theorem mapExcept_roundtrip {A B : Type} (f : A → Except PErr B) (w : B → A) :
    ∀ (l : List B), (∀ b ∈ l, f (w b) = .ok b) →
      mapExcept f (l.map w) = .ok l := by
  intro l
  induction l with
  | nil => intro _; rfl
  | cons b rest ih =>
    intro h
    simp only [List.map_cons, mapExcept, h b (by simp),
      ih (fun x hx => h x (by simp [hx]))]

theorem readDownloadFile_save {jobs : List DJob}
    (hw : ∀ j ∈ jobs, '|' ∉ j.url ∧ '\n' ∉ j.url ∧ '|' ∉ j.rating ∧ '\n' ∉ j.rating) :
    readDownloadFile (saveDownloadFile jobs) = .ok jobs := by
  unfold readDownloadFile saveDownloadFile
  rw [show (jobs.map (fun j => downloadLine j ++ ['\n'])) =
      ((jobs.map downloadLine).map (fun l => l ++ ['\n'])) by simp]
  rw [pyLines_flatten (by
    intro l hl
    obtain ⟨j, hj, rfl⟩ := List.mem_map.mp hl
    exact newline_not_mem_downloadLine (hw j hj).2.1 (hw j hj).2.2.2)]
  exact mapExcept_roundtrip parseDownloadLine downloadLine jobs
    (fun j hj => parseDownloadLine_downloadLine (hw j hj).1 (hw j hj).2.1
      (hw j hj).2.2.1 (hw j hj).2.2.2)

theorem readPostFile_save (pages : List Int) :
    readPostFile (savePostFile pages) = .ok pages := by
  unfold readPostFile savePostFile
  rw [show (pages.map (fun p => pyStr p ++ ['\n'])) =
      ((pages.map pyStr).map (fun l => l ++ ['\n'])) by simp]
  rw [pyLines_flatten (by
    intro l hl
    obtain ⟨p, hp, rfl⟩ := List.mem_map.mp hl
    exact newline_not_mem_pyStr p)]
  exact mapExcept_roundtrip parsePostLine pyStr pages
    (fun p _ => parsePostLine_pyStr p)

/-! ## Lemmas: update-mode boundary (`crawl_new_images`) -/

theorem newImagesFlat_page (f : Flags) (prev : Str) (page : Int) :
    ∀ (posts : List Post) (rest : List (Int × Post)),
      newImagesFlat f prev (posts.map (fun p => (page, p)) ++ rest) =
        (crawl_new_page f prev page posts).1 ++
          (if (crawl_new_page f prev page posts).2 then []
           else newImagesFlat f prev rest) := by
  intro posts
  induction posts with
  | nil => intro rest; simp [crawl_new_page]
  | cons p ps ih =>
    intro rest
    by_cases hb : p.id = prev
    · simp [crawl_new_page, newImagesFlat, hb]
    · have hc : crawl_new_page f prev page (p :: ps) =
          (post_jobs f page p ++ (crawl_new_page f prev page ps).1,
            (crawl_new_page f prev page ps).2) := by
        simp [crawl_new_page, hb]
      simp only [List.map_cons, List.cons_append, newImagesFlat, if_neg hb, hc,
        List.append_eq]
      rw [ih rest, List.append_assoc]

theorem crawl_new_images_eq_flat (f : Flags) (prev : Str) :
    ∀ pages, crawl_new_images f prev pages = newImagesFlat f prev (flatPosts pages) := by
  intro pages
  induction pages with
  | nil => rfl
  | cons pp rest ih =>
    obtain ⟨page, posts⟩ := pp
    have hfp : flatPosts ((page, posts) :: rest) =
        posts.map (fun p => (page, p)) ++ flatPosts rest := by
      simp [flatPosts]
    rw [hfp, newImagesFlat_page f prev page posts (flatPosts rest), ← ih]
    simp only [crawl_new_images]
    by_cases hs : (crawl_new_page f prev page posts).2 <;> simp [hs]

theorem newImagesFlat_boundary (f : Flags) (prev : Str) :
    ∀ (l : List (Int × Post)) (k : Nat) (entry : Int × Post),
      l[k]? = some entry → entry.2.id = prev →
      (∀ j e, j < k → l[j]? = some e → e.2.id ≠ prev) →
      newImagesFlat f prev l =
        (l.take k).flatMap (fun pe => post_jobs f pe.1 pe.2) := by
  intro l
  induction l with
  | nil => intro k entry hk; simp at hk
  | cons hd rest ih =>
    intro k entry hk hid hbefore
    obtain ⟨page, p⟩ := hd
    cases k with
    | zero =>
      rw [List.getElem?_cons_zero] at hk
      have hentry : (page, p) = entry := by injection hk
      subst hentry
      have hid2 : p.id = prev := hid
      simp [newImagesFlat, hid2]
    | succ k =>
      have hne : p.id ≠ prev := by
        have := hbefore 0 (page, p) (Nat.succ_pos k) (by rw [List.getElem?_cons_zero])
        simpa using this
      rw [List.getElem?_cons_succ] at hk
      rw [List.take_succ_cons, List.flatMap_cons]
      simp only [newImagesFlat, if_neg hne]
      rw [ih k entry hk hid (fun j e hj he =>
        hbefore (j + 1) e (Nat.succ_lt_succ hj) (by rw [List.getElem?_cons_succ]; exact he))]

/-! ## Lemmas: substring test and URL normalization -/

theorem pyIn_append_self (pat rest : Str) : pyIn pat (pat ++ rest) = true := by
  cases hpr : pat ++ rest with
  | nil =>
    obtain ⟨h1, h2⟩ := List.append_eq_nil.mp hpr
    subst h1; subst h2; rfl
  | cons c t =>
    simp only [pyIn, Bool.or_eq_true]
    left
    rw [← hpr]
    exact List.isPrefixOf_iff_prefix.mpr (List.prefix_append pat rest)

theorem normalize_url_has_https (href : Str) :
    pyIn "https:".toList (normalize_url href) = true := by
  unfold normalize_url
  by_cases h : pyIn "https:".toList href = true
  · rw [if_pos h]; exact h
  · rw [if_neg h]; exact pyIn_append_self _ _

theorem mem_post_jobs {f : Flags} {page : Int} {p : Post} {job : DJob}
    (h : job ∈ post_jobs f page p) :
    job.url = normalize_url p.href ∧ job.page = page ∧
      rating_of_post f p.alt = some job.rating := by
  unfold post_jobs at h
  cases hr : rating_of_post f p.alt with
  | none => rw [hr] at h; simp at h
  | some r =>
    rw [hr] at h
    simp only [List.mem_singleton] at h
    subst h
    exact ⟨rfl, rfl, rfl⟩

theorem mem_crawl_post_page_posts {f : Flags} {page : Int} {posts : List Post}
    {job : DJob} (h : job ∈ crawl_post_page_posts f page posts) :
    ∃ p ∈ posts, job ∈ post_jobs f page p := by
  unfold crawl_post_page_posts at h
  obtain ⟨p, hp, hj⟩ := List.mem_flatMap.mp h
  exact ⟨p, hp, hj⟩

theorem mem_crawl_new_page {f : Flags} {prev : Str} {page : Int} {job : DJob} :
    ∀ {posts : List Post}, job ∈ (crawl_new_page f prev page posts).1 →
      ∃ p ∈ posts, job ∈ post_jobs f page p := by
  intro posts
  induction posts with
  | nil => intro h; simp [crawl_new_page] at h
  | cons p ps ih =>
    intro h
    by_cases hb : p.id = prev
    · simp [crawl_new_page, hb] at h
    · simp only [crawl_new_page, if_neg hb, List.mem_append] at h
      rcases h with h | h
      · exact ⟨p, by simp, h⟩
      · obtain ⟨q, hq, hj⟩ := ih h
        exact ⟨q, by simp [hq], hj⟩

theorem mem_crawl_new_images {f : Flags} {prev : Str} {job : DJob} :
    ∀ {pages : List (Int × List Post)}, job ∈ crawl_new_images f prev pages →
      ∃ page posts, (page, posts) ∈ pages ∧ ∃ p ∈ posts, job ∈ post_jobs f page p := by
  intro pages
  induction pages with
  | nil => intro h; simp [crawl_new_images] at h
  | cons pp rest ih =>
    obtain ⟨page, posts⟩ := pp
    intro h
    simp only [crawl_new_images] at h
    by_cases hs : (crawl_new_page f prev page posts).2 = true
    · rw [if_pos hs] at h
      obtain ⟨p, hp, hj⟩ := mem_crawl_new_page h
      exact ⟨page, posts, by simp, p, hp, hj⟩
    · rw [if_neg hs, List.mem_append] at h
      rcases h with h | h
      · obtain ⟨p, hp, hj⟩ := mem_crawl_new_page h
        exact ⟨page, posts, by simp, p, hp, hj⟩
      · obtain ⟨pg, ps, hmem, p, hp, hj⟩ := ih h
        exact ⟨pg, ps, by simp [hmem], p, hp, hj⟩

/-! ## Lemmas: last path segment (`url.split("/")[-1]`) -/

theorem takeWhile_all {p : Char → Bool} :
    ∀ {l : Str}, (∀ x ∈ l, p x = true) → l.takeWhile p = l := by
  intro l
  induction l with
  | nil => intro _; rfl
  | cons a l' ih =>
    intro h
    rw [List.takeWhile_cons, if_pos (h a (by simp)), ih (fun x hx => h x (by simp [hx]))]

theorem takeWhile_append_all {p : Char → Bool} :
    ∀ {l : Str} (l2 : Str), (∀ x ∈ l, p x = true) →
      (l ++ l2).takeWhile p = l ++ l2.takeWhile p := by
  intro l
  induction l with
  | nil => intro l2 _; rfl
  | cons a l' ih =>
    intro l2 h
    rw [List.cons_append, List.takeWhile_cons, if_pos (h a (by simp)),
      ih l2 (fun x hx => h x (by simp [hx])), List.cons_append]

theorem takeWhile_append_stop {p : Char → Bool} :
    ∀ {l : Str} (l2 : Str) {x : Char}, x ∈ l → p x = false →
      (l ++ l2).takeWhile p = l.takeWhile p := by
  intro l
  induction l with
  | nil => intro l2 x hx; simp at hx
  | cons a l' ih =>
    intro l2 x hx hpx
    rw [List.cons_append, List.takeWhile_cons, List.takeWhile_cons]
    by_cases hpa : p a = true
    · rw [if_pos hpa, if_pos hpa]
      have hxl : x ∈ l' := by
        rcases List.mem_cons.mp hx with h | h
        · subst h; rw [hpa] at hpx; exact absurd hpx (by decide)
        · exact h
      rw [ih l2 hxl hpx]
    · rw [if_neg hpa, if_neg hpa]

theorem splitOnChar_two_le_length {sep : Char} :
    ∀ {t : Str}, sep ∈ t ↔ 2 ≤ (splitOnChar sep t).length := by
  intro t
  induction t with
  | nil => simp [splitOnChar]
  | cons c t' ih =>
    by_cases hc : c = sep
    · subst hc
      have hsc : splitOnChar c (c :: t') = [] :: splitOnChar c t' := by
        simp [splitOnChar]
      rw [hsc]
      simp only [List.length_cons, List.mem_cons]
      have hne := splitOnChar_ne_nil c t'
      constructor
      · intro _
        have h1 : 1 ≤ (splitOnChar c t').length := by
          cases h : splitOnChar c t' with
          | nil => exact absurd h hne
          | cons _ _ => simp
        omega
      · intro _; left; trivial
    · obtain ⟨h, t2, ht⟩ := List.exists_cons_of_ne_nil (splitOnChar_ne_nil sep t')
      have hsc : splitOnChar sep (c :: t') = (c :: h) :: t2 := by
        simp only [splitOnChar, if_neg hc, ht]
      rw [hsc]
      rw [ht] at ih
      simp only [List.length_cons, List.mem_cons] at ih ⊢
      constructor
      · intro hm
        rcases hm with hm | hm
        · exact absurd hm.symm hc
        · exact ih.mp hm
      · intro hlen; right; exact ih.mpr hlen

theorem splitOnChar_getLast (sep : Char) :
    ∀ s : Str, (splitOnChar sep s).getLast? =
      some ((s.reverse.takeWhile (fun c => c != sep)).reverse) := by
  intro s
  induction s with
  | nil => simp [splitOnChar]
  | cons a t ih =>
    have hrev : (a :: t).reverse = t.reverse ++ [a] := by simp
    by_cases ha : a = sep
    · subst ha
      obtain ⟨h, t', ht⟩ := List.exists_cons_of_ne_nil (splitOnChar_ne_nil a t)
      have hsc : splitOnChar a (a :: t) = [] :: splitOnChar a t := by
        simp [splitOnChar]
      have hlhs : (splitOnChar a (a :: t)).getLast? = (splitOnChar a t).getLast? := by
        rw [hsc, ht, List.getLast?_cons_cons]
      rw [hlhs, ih, hrev]
      by_cases hm : a ∈ t
      · rw [takeWhile_append_stop [a] (List.mem_reverse.mpr hm) (by simp)]
      · rw [takeWhile_append_all [a]
          (fun x hx => by
            have : x ≠ a := fun he => hm (he ▸ List.mem_reverse.mp hx)
            simpa using this)]
        rw [show List.takeWhile (fun c => c != a) [a] = [] by simp,
          List.append_nil, takeWhile_all (fun x hx => by
            have : x ≠ a := fun he => hm (he ▸ List.mem_reverse.mp hx)
            simpa using this)]
    · obtain ⟨h, t', ht⟩ := List.exists_cons_of_ne_nil (splitOnChar_ne_nil sep t)
      have hsplit : splitOnChar sep (a :: t) = (a :: h) :: t' := by
        simp only [splitOnChar, if_neg ha, ht]
      rw [hsplit, hrev]
      cases t' with
      | nil =>
        have hnm : sep ∉ t := by
          intro hm
          have := splitOnChar_two_le_length.mp hm
          rw [ht] at this
          simp at this
        have hht : h = t := by
          have := splitOnChar_not_mem hnm
          rw [ht] at this
          injection this
        subst hht
        rw [takeWhile_append_all [a]
          (fun x hx => by
            have : x ≠ sep := fun he => hnm (he ▸ List.mem_reverse.mp hx)
            simpa using this)]
        rw [show List.takeWhile (fun c => c != sep) [a] = [a] by simp [ha]]
        simp
      | cons h2 t2 =>
        have hm : sep ∈ t := by
          apply splitOnChar_two_le_length.mpr
          rw [ht]; simp
        rw [List.getLast?_cons_cons, ← List.getLast?_cons_cons (a := h), ← ht, ih]
        rw [takeWhile_append_stop [a] (List.mem_reverse.mpr hm) (by simp)]

/-! ## Claims -/

/-- C1, counterexample: the checkpoint round trip fails as universally
stated.  A download job whose url contains the delimiter `'|'` is written
by `save_queues` as `a|b|1|safe`, which `read_queues` re-parses with
`int('b')`, raising `ValueError`: the process exits through the
faulty-progress path instead of reproducing the saved multiset. -/
theorem save_read_pipe_url_not_roundtrip :
    read_queues (save_queues [⟨"a|b".toList, 1, "safe".toList⟩] []).1
      (save_queues [⟨"a|b".toList, 1, "safe".toList⟩] []).2 =
      ReadQueuesOutcome.faultyExit := by decide

/-- C1 (amended): for queues whose download records are free of the
serialization delimiters — no `'|'` and no newline in the url or in the
rating — `save_queues` followed by `read_queues` on fresh queues
reconstructs exactly the original job lists (each download record as
`(url, page as int, rating)`, each post record as its integer page
number), and therefore the same multisets. -/
theorem save_read_queues_roundtrip (jobs : List DJob) (pages : List Int)
    (hw : ∀ j ∈ jobs, '|' ∉ j.url ∧ '\n' ∉ j.url ∧ '|' ∉ j.rating ∧ '\n' ∉ j.rating) :
    read_queues (save_queues jobs pages).1 (save_queues jobs pages).2 =
      ReadQueuesOutcome.ok jobs pages := by
  show read_queues (saveDownloadFile jobs) (savePostFile pages) =
    ReadQueuesOutcome.ok jobs pages
  unfold read_queues
  rw [readDownloadFile_save hw, readPostFile_save pages]

/-- C1 witness: a concrete well-formed mixed pair of queues round-trips. -/
theorem save_read_queues_roundtrip_witness :
    read_queues
      (save_queues [⟨"https://konachan.com/image/abc.png".toList, 2, "safe".toList⟩,
        ⟨"https://yande.re/img/d%20e.jpg".toList, 5, "explicit".toList⟩] [3, 4]).1
      (save_queues [⟨"https://konachan.com/image/abc.png".toList, 2, "safe".toList⟩,
        ⟨"https://yande.re/img/d%20e.jpg".toList, 5, "explicit".toList⟩] [3, 4]).2 =
      ReadQueuesOutcome.ok
        [⟨"https://konachan.com/image/abc.png".toList, 2, "safe".toList⟩,
          ⟨"https://yande.re/img/d%20e.jpg".toList, 5, "explicit".toList⟩] [3, 4] :=
  save_read_queues_roundtrip _ _ (by decide)

/-- C2, counterexample: a download line with the wrong number of
pipe-delimited fields does not, in general, reach the faulty-checkpoint
path: a four-field line whose second field is numeric is accepted
silently, its extra field dropped, and `read_queues` resumes from it. -/
theorem read_queues_extra_fields_accepted :
    read_queues "u|1|safe|junk\n".toList "".toList =
      ReadQueuesOutcome.ok [⟨"u".toList, 1, "safe".toList⟩] [] := by decide

/-- C2 (amended): `read_queues` reaches the fatal faulty-progress path
(message plus `exit(1)`) exactly for a `ValueError` — a download line whose
second pipe-field exists but is non-numeric, or a post line whose page is
non-numeric.  A download line with fewer than two fields (or exactly two
with a numeric second field) instead raises an `IndexError` that the
`except (KeyError, ValueError)` handler does not catch, crashing without
the faulty-progress message; a line with more than three fields and a
numeric second field is accepted with the extra fields ignored. -/
theorem read_queues_malformed_classification :
    (∀ (u p r : Str), '|' ∉ u → '|' ∉ p → pyIntParse p = none →
      parseDownloadLine (u ++ '|' :: (p ++ '|' :: r)) = .error .valueError) ∧
    (∀ (u : Str), '|' ∉ u → parseDownloadLine u = .error .indexError) ∧
    (∀ (u p : Str) (n : Int), '|' ∉ u → '|' ∉ p → pyIntParse p = some n →
      parseDownloadLine (u ++ '|' :: p) = .error .indexError) ∧
    (∀ (line : Str), pyIntParse (pyStripNl line) = none →
      parsePostLine line = .error .valueError) ∧
    (∀ (dl post : Str) (jobs : List DJob),
      (readDownloadFile dl = .error .valueError → read_queues dl post = .faultyExit) ∧
      (readDownloadFile dl = .error .indexError → read_queues dl post = .uncaughtCrash) ∧
      (readDownloadFile dl = .ok jobs → readPostFile post = .error .valueError →
        read_queues dl post = .faultyExit)) := by
  refine ⟨?_, ?_, ?_, ?_, ?_⟩
  · intro u p r hu hp hnone
    unfold parseDownloadLine
    rw [splitOnChar_append _ hu, splitOnChar_append _ hp]
    obtain ⟨h, t, ht⟩ := List.exists_cons_of_ne_nil (splitOnChar_ne_nil '|' r)
    rw [ht]
    simp [hnone]
  · intro u hu
    unfold parseDownloadLine
    rw [splitOnChar_not_mem hu]
  · intro u p n hu hp hsome
    unfold parseDownloadLine
    rw [splitOnChar_append _ hu, splitOnChar_not_mem hp]
    simp [hsome]
  · intro line hnone
    unfold parsePostLine
    rw [hnone]
  · intro dl post jobs
    refine ⟨?_, ?_, ?_⟩
    · intro h; unfold read_queues; rw [h]
    · intro h; unfold read_queues; rw [h]
    · intro h1 h2; unfold read_queues; rw [h1, h2]

/-- C2 witness: the classification evaluated at concrete malformed lines. -/
theorem read_queues_malformed_classification_witness :
    parseDownloadLine ("u".toList ++ '|' :: ("x9z".toList ++ '|' :: "safe".toList)) =
      .error .valueError ∧
    parseDownloadLine "nopipes".toList = .error .indexError ∧
    parsePostLine "abc".toList = .error .valueError :=
  ⟨read_queues_malformed_classification.1 _ _ _ (by decide) (by decide) (by decide),
   read_queues_malformed_classification.2.1 _ (by decide),
   read_queues_malformed_classification.2.2.2.1 _ (by decide)⟩

/-- C3: the two crawl outcomes.  A run that is not interrupted returns
`True` — but the progress files are never removed (`remove_progress_files`
is never called by `crawl`, although its own comment says it runs when a
download fully finishes); an interrupted run returns `False`, saving both
queues exactly when the download queue is nonempty, and saving metadata
on both paths. -/
theorem crawl_outcome_progress_files_never_removed :
    ∀ (nid : Str) (dq : Bool),
      (crawl (some nid) false dq).result = some true ∧
      (crawl (some nid) false dq).removedProgressFiles = false ∧
      (crawl (some nid) false dq).savedQueues = false ∧
      (crawl (some nid) false dq).savedMetadata = true ∧
      (crawl (some nid) true dq).result = some false ∧
      (crawl (some nid) true dq).removedProgressFiles = false ∧
      (crawl (some nid) true dq).savedQueues = dq ∧
      (crawl (some nid) true dq).savedMetadata = true := by
  intro nid dq
  simp [crawl]

/-- C4: for every combination of the three enabled flags and every rating,
a post whose `alt` text contains exactly the marker of its own rating is
accepted by the rating chain iff the flag matching that rating is enabled,
and an accepted post yields exactly one download job carrying that rating
(the same chain and job construction are shared by
`crawl_post_page_worker` and `crawl_new_images` in this embedding, as in
the source). -/
theorem rating_filter_accepts_iff_flag :
    ∀ (f : Flags) (r : Rating) (alt : Str),
      pyIn (ratingMarker r) alt = true →
      (∀ r' : Rating, r' ≠ r → pyIn (ratingMarker r') alt = false) →
      ∀ (page : Int) (id href : Str),
        post_jobs f page ⟨id, alt, href⟩ =
          (if flagEnabled f r then [⟨normalize_url href, page, ratingName r⟩] else []) := by
  intro f r alt h1 h2 page id href
  cases r with
  | safe =>
    have hq := h2 Rating.questionable (by decide)
    have he := h2 Rating.explicit (by decide)
    simp only [ratingMarker] at h1 hq he
    unfold post_jobs rating_of_post
    rw [h1, hq, he]
    cases hf : f.safe <;> simp [hf, flagEnabled, ratingName]
  | questionable =>
    have hs := h2 Rating.safe (by decide)
    have he := h2 Rating.explicit (by decide)
    simp only [ratingMarker] at h1 hs he
    unfold post_jobs rating_of_post
    rw [hs, h1, he]
    cases hf : f.questionable <;> simp [hf, flagEnabled, ratingName]
  | explicit =>
    have hs := h2 Rating.safe (by decide)
    have hq := h2 Rating.questionable (by decide)
    simp only [ratingMarker] at h1 hs hq
    unfold post_jobs rating_of_post
    rw [hs, hq, h1]
    cases hf : f.explicit <;> simp [hf, flagEnabled, ratingName]

/-- C4 witness: a concrete explicit-rated post against explicit-enabled
flags. -/
theorem rating_filter_accepts_iff_flag_witness :
    post_jobs ⟨true, false, true⟩ 7
        ⟨"p1".toList, "Rating: Explicit Score: 1".toList, "https://x/y.png".toList⟩ =
      (if flagEnabled ⟨true, false, true⟩ Rating.explicit then
        [⟨normalize_url "https://x/y.png".toList, 7, ratingName Rating.explicit⟩]
      else []) :=
  rating_filter_accepts_iff_flag ⟨true, false, true⟩ Rating.explicit
    "Rating: Explicit Score: 1".toList (by decide) (by decide) 7 "p1".toList
    "https://x/y.png".toList

/-- C5: when the post at (flattened) index `k` is the first whose id equals
`previous_newest_id`, `crawl_new_images` enqueues exactly the
rating-accepted posts at indices `[0, k)`, in order, and nothing at or
after `k`. -/
theorem crawl_new_images_update_boundary :
    ∀ (f : Flags) (prev : Str) (pages : List (Int × List Post)) (k : Nat)
      (entry : Int × Post),
      (flatPosts pages)[k]? = some entry → entry.2.id = prev →
      (∀ j e, j < k → (flatPosts pages)[j]? = some e → e.2.id ≠ prev) →
      crawl_new_images f prev pages =
        ((flatPosts pages).take k).flatMap (fun pe => post_jobs f pe.1 pe.2) := by
  intro f prev pages k entry hk hid hb
  rw [crawl_new_images_eq_flat]
  exact newImagesFlat_boundary f prev (flatPosts pages) k entry hk hid hb

/-- C5 witness: one page of three safe posts with the boundary at index 1:
only the post before the boundary is enqueued. -/
theorem crawl_new_images_update_boundary_witness :
    crawl_new_images ⟨true, false, false⟩ "id2".toList samplePages =
      ((flatPosts samplePages).take 1).flatMap
        (fun pe => post_jobs ⟨true, false, false⟩ pe.1 pe.2) :=
  crawl_new_images_update_boundary ⟨true, false, false⟩ "id2".toList samplePages 1
    (1, samplePostB) (by decide) (by decide)
    (by
      intro j e hj he
      have hj0 : j = 0 := by omega
      subst hj0
      have h0 : (flatPosts samplePages)[0]? = some ((1 : Int), samplePostA) := by decide
      rw [h0] at he
      injection he with he2
      rw [← he2]
      decide)

/-- C6, counterexample: a failed download attempt with a non-2xx status
outside `[400, 600)` (here `304` with a matching content length) is
re-enqueued and its file deleted, but it is acknowledged twice
(`task_done` runs in the `elif` and again after the un-raised
`raise_for_status`), counted as a successful download, and no failure is
recorded — contradicting the claimed single-ack, recorded handling of
every non-2xx status. -/
theorem download_worker_3xx_double_ack :
    retrieve_post_image_worker_step ⟨"https://k.com/a.png".toList, 1, "safe".toList⟩
        (Fetch.resp 304 (some 0) 0) =
      ⟨2, [⟨"https://k.com/a.png".toList, 1, "safe".toList⟩], 1, false, false⟩ := by
  decide

/-- C6 (amended): per fetch outcome, one worker iteration behaves as:
network error, missing or mismatched content length, and statuses in
`[400, 600)` —
delete any written file, re-enqueue the identical job, acknowledge exactly
once, record the failure, and continue; a non-200 status outside
`[400, 600)` with matching content length — delete and re-enqueue, but
acknowledge twice, count one download, and record nothing; status 200 —
keep the file, count one download, acknowledge once. -/
theorem download_worker_failure_handling :
    ∀ (job : DJob),
      (retrieve_post_image_worker_step job Fetch.netError = ⟨1, [job], 0, false, true⟩) ∧
      (∀ (s : Nat) (blen : Int),
        retrieve_post_image_worker_step job (Fetch.resp s none blen) =
          ⟨1, [job], 0, false, true⟩) ∧
      (∀ (s : Nat) (c blen : Int), c ≠ blen →
        retrieve_post_image_worker_step job (Fetch.resp s (some c) blen) =
          ⟨1, [job], 0, false, true⟩) ∧
      (∀ (s : Nat) (blen : Int), 400 ≤ s → s < 600 →
        retrieve_post_image_worker_step job (Fetch.resp s (some blen) blen) =
          ⟨1, [job], 0, false, true⟩) ∧
      (∀ (s : Nat) (blen : Int), s ≠ 200 → ¬(400 ≤ s ∧ s < 600) →
        retrieve_post_image_worker_step job (Fetch.resp s (some blen) blen) =
          ⟨2, [job], 1, false, false⟩) ∧
      (∀ (blen : Int),
        retrieve_post_image_worker_step job (Fetch.resp 200 (some blen) blen) =
          ⟨1, [], 1, true, false⟩) := by
  intro job
  refine ⟨rfl, ?_, ?_, ?_, ?_, ?_⟩
  · intro s blen
    rfl
  · intro s c blen hne
    simp [retrieve_post_image_worker_step, hne]
  · intro s blen h4 h6
    have hne : s ≠ 200 := by omega
    simp [retrieve_post_image_worker_step, hne, h4, h6]
  · intro s blen hne hnot
    simp [retrieve_post_image_worker_step, hne, hnot]
  · intro blen
    simp [retrieve_post_image_worker_step]

/-- C6 witness: the handling evaluated at concrete failures (a network
error and a 404 with matching content length). -/
theorem download_worker_failure_handling_witness :
    retrieve_post_image_worker_step ⟨"https://k.com/b.png".toList, 2, "safe".toList⟩
        (Fetch.resp 404 (some 7) 7) =
      ⟨1, [⟨"https://k.com/b.png".toList, 2, "safe".toList⟩], 0, false, true⟩ :=
  (download_worker_failure_handling _).2.2.2.1 404 7 (by decide) (by decide)

/-- C7: `save_metadata` writes `total_downloads` and `time_elapsed` as the
literal `'0'` whenever `job_done` is set, and as the run's accumulated
download count (`str(self.total_downloads)`) and formatted elapsed seconds
whenever it is not. -/
theorem save_metadata_zeroes_on_job_done :
    ∀ (f : Flags) (total : Int) (elapsed : Str) (nid : Str),
      ((save_metadata f total elapsed true nid).total_downloads = "0".toList ∧
        (save_metadata f total elapsed true nid).time_elapsed = "0".toList) ∧
      ((save_metadata f total elapsed false nid).total_downloads = pyStr total ∧
        (save_metadata f total elapsed false nid).time_elapsed = elapsed) := by
  intro f total elapsed nid
  simp [save_metadata]

/-- C8: with no rating enabled, the rating chain rejects every post, so the
run can download nothing — but `crawl` does not terminate normally:
`get_newest_image_id` returns `None` for every post list, `save_metadata`
then raises `TypeError` when storing `previous_newest_id`, and that
exception escapes `crawl` (its handler catches only
`KeyboardInterrupt`/`SystemExit`), so no boolean is returned. -/
theorem no_enabled_ratings_crawl_raises :
    (∀ alt : Str, rating_of_post ⟨false, false, false⟩ alt = none) ∧
    (∀ page p, post_jobs ⟨false, false, false⟩ page p = []) ∧
    (∀ posts, get_newest_image_id ⟨false, false, false⟩ posts = none) ∧
    (∀ (total : Int) (elapsed : Str) (jobDone : Bool),
      save_metadata_checked ⟨false, false, false⟩ total elapsed jobDone none =
        .error ()) ∧
    (∀ (interrupted dq : Bool), (crawl none interrupted dq).result = none) := by
  refine ⟨?_, ?_, ?_, ?_, ?_⟩
  · intro alt
    simp [rating_of_post]
  · intro page p
    simp [post_jobs, rating_of_post]
  · intro posts
    induction posts with
    | nil => rfl
    | cons p rest ih => simp [get_newest_image_id, rating_of_post, ih]
  · intro total elapsed jobDone
    rfl
  · intro interrupted dq
    cases interrupted <;> simp [crawl]

/-- C9: the output path computed by the download worker is the storage root,
then `'{rating}/'` exactly when the separate-by-rating option is set, then
the last `'/'`-separated segment of the url (equivalently: its longest
`'/'`-free suffix) with every `'%20'` replaced by `'_'` and then every
`'_-_'` replaced by `'_'`. -/
theorem download_file_path_derivation :
    ∀ (storage : Str) (separate : Bool) (j : DJob),
      file_path storage separate j =
        storage ++ (if separate then j.rating ++ ['/'] else []) ++
          pyReplace "_-_".toList "_".toList
            (pyReplace "%20".toList "_".toList
              ((j.url.reverse.takeWhile (fun c => c != '/')).reverse)) := by
  intro storage separate j
  unfold file_path file_name
  rw [List.getLastD_eq_getLast?, splitOnChar_getLast]
  rfl

/-- C10: every download job enqueued by the page-crawl worker or by
`crawl_new_images` has a url containing `'https:'`: the extracted href is
kept unchanged when it already contains that substring and is prefixed
with `'https:'` otherwise, and the job carries its page number with it. -/
theorem download_jobs_url_https :
    (∀ href : Str, pyIn "https:".toList (normalize_url href) = true ∧
      (pyIn "https:".toList href = false →
        normalize_url href = "https:".toList ++ href) ∧
      (pyIn "https:".toList href = true → normalize_url href = href)) ∧
    (∀ (f : Flags) (page : Int) (posts : List Post) (job : DJob),
      job ∈ crawl_post_page_posts f page posts →
        pyIn "https:".toList job.url = true ∧ job.page = page) ∧
    (∀ (f : Flags) (prev : Str) (pages : List (Int × List Post)) (job : DJob),
      job ∈ crawl_new_images f prev pages → pyIn "https:".toList job.url = true) := by
  refine ⟨?_, ?_, ?_⟩
  · intro href
    refine ⟨normalize_url_has_https href, ?_, ?_⟩
    · intro h; unfold normalize_url; rw [h]; simp
    · intro h; unfold normalize_url; rw [h]; simp
  · intro f page posts job hmem
    obtain ⟨p, _, hj⟩ := mem_crawl_post_page_posts hmem
    obtain ⟨hurl, hpage, _⟩ := mem_post_jobs hj
    refine ⟨?_, hpage⟩
    rw [hurl]
    exact normalize_url_has_https _
  · intro f prev pages job hmem
    obtain ⟨pg, ps, _, p, _, hj⟩ := mem_crawl_new_images hmem
    obtain ⟨hurl, _, _⟩ := mem_post_jobs hj
    rw [hurl]
    exact normalize_url_has_https _

/-- C10 witness: a job extracted from a concrete post keeps `'https:'` in
its url, and a protocol-relative href gets `'https:'` prepended. -/
theorem download_jobs_url_https_witness :
    pyIn "https:".toList
      ((⟨"https://konachan.com/x.png".toList, 1, "safe".toList⟩ : DJob).url) = true ∧
    normalize_url "//konachan.com/x.png".toList =
      "https:".toList ++ "//konachan.com/x.png".toList :=
  ⟨(download_jobs_url_https.2.1 ⟨true, true, true⟩ 1
      [⟨"p".toList, "Rating: Safe".toList, "https://konachan.com/x.png".toList⟩]
      ⟨"https://konachan.com/x.png".toList, 1, "safe".toList⟩ (by decide)).1,
   (download_jobs_url_https.1 "//konachan.com/x.png".toList).2.1 (by decide)⟩
